import Mathlib

/-!
Verification of the backgammon rules engine: board model, rule predicates,
move generation and application, sequence search, position evaluator,
doubling cube, AI sequence selection, and the game reviewer.

The board is a list of 26 signed integers: indices 0..23 are points
(positive = white checkers, negative = black), index 24 is the white bar,
index 25 the black bar.  Index 26 is the reserved bear-off destination.
Out-of-range reads return 0, which agrees with the source's comparison
semantics at the indices that are actually reachable.
-/

inductive Player where
  | white
  | black
deriving DecidableEq, Repr

def opponent : Player → Player
  | .white => .black
  | .black => .white

structure BorneOff where
  white : Int
  black : Int
deriving DecidableEq, Repr

structure Move where
  from' : Int
  to' : Int
  die : Int
  isHit : Bool
deriving DecidableEq, Repr

/-- Read `board[i]` for a natural index. -/
def bgetN (b : List Int) (i : Nat) : Int := b.getD i 0

/-- Read `board[i]` for a signed index (negative reads give 0). -/
def bget (b : List Int) (i : Int) : Int := if 0 ≤ i then bgetN b i.toNat else 0

/-- Write `board[i] = v` for a natural index. -/
def bsetN (b : List Int) (i : Nat) (v : Int) : List Int := b.set i v

/-- Write `board[i] = v` for a signed index (negative writes are dropped). -/
def bset (b : List Int) (i : Int) (v : Int) : List Int :=
  if 0 ≤ i then bsetN b i.toNat v else b

/-- `isBlocked` from Rules: destination holds at least two opposing checkers;
bearing off (index 26) is never blocked. -/
def isBlocked (board : List Int) (dest : Int) (player : Player) : Bool :=
  if dest = 26 then false
  else match player with
    | .white => decide (bget board dest ≤ -2)
    | .black => decide (bget board dest ≥ 2)

/-- `hasBar` from Rules: the player has a checker on the bar. -/
def hasBar (board : List Int) (player : Player) : Bool :=
  match player with
  | .white => decide (bgetN board 24 > 0)
  | .black => decide (bgetN board 25 > 0)

/-- `canBearOff` from Rules: no bar checker and all checkers in the home board. -/
def canBearOff (board : List Int) (player : Player) : Bool :=
  if hasBar board player then false
  else match player with
    | .white => (List.range' 6 18).all (fun i => decide (bgetN board i ≤ 0))
    | .black => (List.range' 0 18).all (fun i => decide (bgetN board i ≥ 0))

structure MoveResult where
  board : List Int
  borneOff : BorneOff
deriving DecidableEq, Repr

/-- `applyMoveToBoard` from MoveGenerator: remove the checker from its source
(bar index or point), then either bear off, or resolve a hit and land on the
destination point. -/
def applyMoveToBoard (board : List Int) (borneOff : BorneOff) (move : Move)
    (player : Player) : MoveResult :=
  let b := board
  let bo := borneOff
  let b :=
    if move.from' = 24 then bset b 24 (bget b 24 - 1)
    else if move.from' = 25 then bset b 25 (bget b 25 - 1)
    else if player = .white then bset b move.from' (bget b move.from' - 1)
    else bset b move.from' (bget b move.from' + 1)
  if move.to' = 26 then
    if player = .white then ⟨b, { bo with white := bo.white + 1 }⟩
    else ⟨b, { bo with black := bo.black + 1 }⟩
  else
    let b :=
      if player = .white ∧ bget b move.to' = -1 then
        bset (bset b move.to' 0) 25 (bget (bset b move.to' 0) 25 + 1)
      else if player = .black ∧ bget b move.to' = 1 then
        bset (bset b move.to' 0) 24 (bget (bset b move.to' 0) 24 + 1)
      else b
    let b :=
      if player = .white then bset b move.to' (bget b move.to' + 1)
      else bset b move.to' (bget b move.to' - 1)
    ⟨b, bo⟩

/-- `singleDieMoves` from MoveGenerator: bar entry takes absolute priority;
otherwise bear-off moves (when eligible) followed by regular moves. -/
def singleDieMoves (board : List Int) (borneOff : BorneOff) (die : Int)
    (player : Player) : List Move :=
  match player with
  | .white =>
    if bgetN board 24 > 0 then
      let t : Int := 24 - die
      if 0 ≤ t ∧ t ≤ 23 ∧ isBlocked board t .white = false then
        [⟨24, t, die, decide (bget board t = -1)⟩]
      else []
    else
      (if canBearOff board .white then
        (List.range 6).filterMap (fun i =>
          if bgetN board i ≤ 0 then none
          else if die = (i : Int) + 1 then some ⟨i, 26, die, false⟩
          else if die > (i : Int) + 1 then
            if (List.range' (i + 1) (5 - i)).any (fun j => decide (bgetN board j > 0)) then
              none
            else some ⟨i, 26, die, false⟩
          else none)
      else []) ++
      ((List.range 24).reverse.filterMap (fun i =>
        if bgetN board i ≤ 0 then none
        else
          let t : Int := (i : Int) - die
          if 0 ≤ t ∧ isBlocked board t .white = false then
            some ⟨i, t, die, decide (bget board t = -1)⟩
          else none))
  | .black =>
    if bgetN board 25 > 0 then
      let t : Int := die - 1
      if 0 ≤ t ∧ t ≤ 23 ∧ isBlocked board t .black = false then
        [⟨25, t, die, decide (bget board t = 1)⟩]
      else []
    else
      (if canBearOff board .black then
        (List.range' 18 6).reverse.filterMap (fun i =>
          if bgetN board i ≥ 0 then none
          else if die = 24 - (i : Int) then some ⟨i, 26, die, false⟩
          else if die > 24 - (i : Int) then
            if (List.range' (i + 1) (23 - i)).any (fun j => decide (bgetN board j < 0)) then
              none
            else some ⟨i, 26, die, false⟩
          else none)
      else []) ++
      ((List.range 24).filterMap (fun i =>
        if bgetN board i ≥ 0 then none
        else
          let t : Int := (i : Int) + die
          if t ≤ 23 ∧ isBlocked board t .black = false then
            some ⟨i, t, die, decide (bget board t = 1)⟩
          else none))

/-- The recursive sequence generator from MoveGenerator, with the recursion
depth made explicit as a fuel argument (one unit per die consumed; callers
pass the number of dice, which bounds the depth exactly).  At each level a
die value already tried at the same level is skipped, every legal move for a
fresh die value is applied and the search recurses on the remaining dice;
when no die yields a move the sequence ends at the current accumulator. -/
def generateAllAux : Nat → List Int → BorneOff → List Int → Player → List Move →
    List (List Move)
  | _, _, _, [], _, pre => [pre]
  | 0, _, _, _ :: _, _, pre => [pre]
  | fuel + 1, board, borneOff, diceLeft, player, pre =>
    let sequences :=
      (List.range diceLeft.length).flatMap (fun i =>
        let die := diceLeft.getD i 0
        if die ∈ diceLeft.take i then []
        else
          (singleDieMoves board borneOff die player).flatMap (fun m =>
            let r := applyMoveToBoard board borneOff m player
            generateAllAux fuel r.board r.borneOff (diceLeft.eraseIdx i) player
              (pre ++ [m])))
    if sequences = [] then [pre] else sequences

/-- `generateAll` from MoveGenerator: the fuel is the number of dice. -/
def generateAll (board : List Int) (borneOff : BorneOff) (diceLeft : List Int)
    (player : Player) (pre : List Move) : List (List Move) :=
  generateAllAux diceLeft.length board borneOff diceLeft player pre

/-- `s[0].die` as read by `getLegalMoveSequences` (0 when the list is empty,
which never happens on the path that reads it). -/
def headDie : List Move → Int
  | [] => 0
  | m :: _ => m.die

/-- `getLegalMoveSequences` from MoveGenerator: keep only the sequences of
maximal length; when only one die of a two-distinct-value roll can be used
and some kept sequence uses the higher die, keep only those. -/
def getLegalMoveSequences (board : List Int) (borneOff : BorneOff)
    (dice : List Int) (player : Player) : List (List Move) :=
  let all := generateAll board borneOff dice player []
  if all = [] then [[]]
  else
    let maxLen := (all.map List.length).foldl Nat.max 0
    let best := all.filter (fun s => decide (s.length = maxLen))
    if maxLen = 1 ∧ dice.length = 2 ∧ dice.getD 0 0 ≠ dice.getD 1 0 then
      let highDie := max (dice.getD 0 0) (dice.getD 1 0)
      let withHigh := best.filter (fun s => decide (headDie s = highDie))
      if withHigh = [] then best else withHigh
    else best

/-- `hasNoMoves` from MoveGenerator: no distinct die value yields any
single-die move. -/
def hasNoMoves (board : List Int) (borneOff : BorneOff) (dice : List Int)
    (player : Player) : Bool :=
  dice.dedup.all (fun die => decide (singleDieMoves board borneOff die player = []))

/-- Pip-count part of `evaluate` in GreedyAI (white side). -/
def whitePipOf (board : List Int) : Int :=
  (∑ i in Finset.range 24, if bgetN board i > 0 then bgetN board i * ((i : Int) + 1) else 0) +
    bgetN board 24 * 25

/-- Pip-count part of `evaluate` in GreedyAI (black side). -/
def blackPipOf (board : List Int) : Int :=
  (∑ i in Finset.range 24, if bgetN board i < 0 then -bgetN board i * (24 - (i : Int)) else 0) +
    bgetN board 25 * 25

/-- Pip differential term of `evaluate` (positive = better for white). -/
def pipScore (board : List Int) : Int := blackPipOf board - whitePipOf board

/-- Blot-exposure term of `evaluate`. -/
def blotScore (board : List Int) : Int :=
  let whiteBlots : Int := ∑ i in Finset.range 24, if bgetN board i = 1 then 1 else 0
  let blackBlots : Int := ∑ i in Finset.range 24, if bgetN board i = -1 then 1 else 0
  (blackBlots - whiteBlots) * 8

/-- Anchor-count term of `evaluate`. -/
def anchorScore (board : List Int) : Int :=
  let whiteAnchors : Int := ∑ i in Finset.range 24, if bgetN board i ≥ 2 then 1 else 0
  let blackAnchors : Int := ∑ i in Finset.range 24, if bgetN board i ≤ -2 then 1 else 0
  (whiteAnchors - blackAnchors) * 4

/-- One step of the prime-strength scan of `evaluate`: bump or reset each
player's current run of held points, adding 6 once a run reaches length 2 at
the current point.  State: (whitePrime, blackPrime, wRun, bRun). -/
def primeStep (board : List Int) (st : Int × Int × Nat × Nat) (i : Nat) :
    Int × Int × Nat × Nat :=
  let (wP, bP, wRun, bRun) := st
  let (wP, wRun) :=
    if bgetN board i ≥ 2 then (if wRun + 1 ≥ 2 then wP + 6 else wP, wRun + 1)
    else (wP, 0)
  let (bP, bRun) :=
    if bgetN board i ≤ -2 then (if bRun + 1 ≥ 2 then bP + 6 else bP, bRun + 1)
    else (bP, 0)
  (wP, bP, wRun, bRun)

/-- The prime-strength scan of `evaluate`: one pass over the 24 points.
Returns (whitePrime, blackPrime). -/
def primePart (board : List Int) : Int × Int :=
  let st := (List.range 24).foldl (primeStep board) (0, 0, 0, 0)
  (st.1, st.2.1)

/-- Length of the run of white-held points ending just before index `n`. -/
def runW (board : List Int) : Nat → Nat
  | 0 => 0
  | n + 1 => if bgetN board n ≥ 2 then runW board n + 1 else 0

/-- Length of the run of black-held points ending just before index `n`. -/
def runB (board : List Int) : Nat → Nat
  | 0 => 0
  | n + 1 => if bgetN board n ≤ -2 then runB board n + 1 else 0

/-- Number of indices `i < n` such that white holds both `i` and `i-1`
(adjacent pairs of held points). -/
def pairCountW (board : List Int) (n : Nat) : Nat :=
  (List.range n).countP (fun i =>
    decide (1 ≤ i ∧ bgetN board i ≥ 2 ∧ bgetN board (i - 1) ≥ 2))

/-- Number of indices `i < n` such that black holds both `i` and `i-1`. -/
def pairCountB (board : List Int) (n : Nat) : Nat :=
  (List.range n).countP (fun i =>
    decide (1 ≤ i ∧ bgetN board i ≤ -2 ∧ bgetN board (i - 1) ≤ -2))

/-- The white prime score as the spec sentence reads: 6 for every point that
belongs to a run of at least 2 consecutive white-held points. -/
def claimPrimeWhite (board : List Int) : Int :=
  6 * ((List.range 24).countP (fun i =>
    decide (bgetN board i ≥ 2 ∧
      ((0 < i ∧ bgetN board (i - 1) ≥ 2) ∨ (i < 23 ∧ bgetN board (i + 1) ≥ 2)))) : Int)

/-- The black prime score as the spec sentence reads. -/
def claimPrimeBlack (board : List Int) : Int :=
  6 * ((List.range 24).countP (fun i =>
    decide (bgetN board i ≤ -2 ∧
      ((0 < i ∧ bgetN board (i - 1) ≤ -2) ∨ (i < 23 ∧ bgetN board (i + 1) ≤ -2)))) : Int)

/-- Positive part: the number of white checkers encoded at a point. -/
def wPart (v : Int) : Int := max v 0

/-- Negative part: the number of black checkers encoded at a point. -/
def bPart (v : Int) : Int := max (-v) 0

/-- White checkers on the 24 points. -/
def whiteOn (b : List Int) : Int := ∑ i in Finset.range 24, wPart (bgetN b i)

/-- Black checkers on the 24 points. -/
def blackOn (b : List Int) : Int := ∑ i in Finset.range 24, bPart (bgetN b i)

/-- White's total checker count: points, bar, and borne off. -/
def whiteTotal (b : List Int) (bo : BorneOff) : Int :=
  whiteOn b + bgetN b 24 + bo.white

/-- Black's total checker count: points, bar, and borne off. -/
def blackTotal (b : List Int) (bo : BorneOff) : Int :=
  blackOn b + bgetN b 25 + bo.black

/-- Prime-strength term of `evaluate`. -/
def primeScore (board : List Int) : Int := (primePart board).1 - (primePart board).2

/-- Bar-occupancy term of `evaluate`. -/
def barScore (board : List Int) : Int := (bgetN board 25 - bgetN board 24) * 15

/-- Bear-off progress term of `evaluate`. -/
def bearScore (borneOff : BorneOff) : Int := (borneOff.white - borneOff.black) * 10

/-- `evaluate` from GreedyAI: signed heuristic score, positive favouring white. -/
def evaluate (board : List Int) (borneOff : BorneOff) : Int :=
  pipScore board + blotScore board + anchorScore board + primeScore board +
    barScore board + bearScore borneOff

/-- `GameState.initializeBoard`: the standard backgammon starting position. -/
def initializeBoard : List Int :=
  let board := List.replicate 26 (0 : Int)
  let board := bsetN board 23 2
  let board := bsetN board 12 5
  let board := bsetN board 7 3
  let board := bsetN board 5 5
  let board := bsetN board 0 (-2)
  let board := bsetN board 11 (-5)
  let board := bsetN board 16 (-3)
  let board := bsetN board 18 (-5)
  board

/-- `GameState.pipCount`: total remaining travel distance for a player. -/
def pipCount (board : List Int) (player : Player) : Int :=
  match player with
  | .white =>
    (∑ i in Finset.range 24, if bgetN board i > 0 then bgetN board i * ((i : Int) + 1) else 0) +
      bgetN board 24 * 25
  | .black =>
    (∑ i in Finset.range 24, if bgetN board i < 0 then -bgetN board i * (24 - (i : Int)) else 0) +
      bgetN board 25 * 25

structure Cube where
  value : Int
  owner : Option Player
deriving DecidableEq, Repr

/-- The slice of `GameState` that the doubling-cube controller reads and
writes: the cube, the phase string, whose turn it is, and who offered the
pending double. -/
structure CubeGS where
  cube : Cube
  phase : String
  currentPlayer : Player
  doubleOfferedBy : Option Player
deriving DecidableEq, Repr

/-- `DoublingCube.canOffer`: the cube is centred or owned by the player. -/
def canOffer (currentPlayer : Player) (cube : Cube) : Bool :=
  decide (cube.owner = none ∨ cube.owner = some currentPlayer)

/-- `DoublingCube.offerDouble`: record the offerer and enter the doubling phase. -/
def offerDouble (gs : CubeGS) : CubeGS :=
  { gs with doubleOfferedBy := some gs.currentPlayer, phase := "doubling" }

/-- `DoublingCube.acceptDouble`: double the value, transfer ownership to the
accepting (non-offering) player, return to the rolling phase. -/
def acceptDouble (gs : CubeGS) : CubeGS :=
  let accepting : Player := if gs.doubleOfferedBy = some .white then .black else .white
  { gs with
    cube := { value := gs.cube.value * 2, owner := some accepting }
    doubleOfferedBy := none
    phase := "rolling" }

/-- `DoublingCube.declineDouble`: the offerer wins immediately for the current
cube value; returns the updated state together with the (winner, points) pair
passed to the end-game callback. -/
def declineDouble (gs : CubeGS) : CubeGS × Option Player × Int :=
  let winner := gs.doubleOfferedBy
  let pts := gs.cube.value
  ({ gs with doubleOfferedBy := none, phase := "rolling" }, winner, pts)

/-- `applySequence` (GreedyAI / GameReview): fold a sequence of moves over a
position. -/
def applySequence (board : List Int) (borneOff : BorneOff) (seq : List Move)
    (player : Player) : MoveResult :=
  seq.foldl (fun r move => applyMoveToBoard r.board r.borneOff move player)
    ⟨board, borneOff⟩

/-- The rating thresholds of GameReview, in ascending order; `none` stands
for the final Infinity bucket. -/
def THRESHOLDS : List (Option ℚ × String) :=
  [(some 3, "best"), (some 8, "good"), (some 18, "inaccuracy"),
   (some 35, "mistake"), (none, "blunder")]

/-- `scoreDiff <= t.max`, with `none` as Infinity. -/
def leThreshold (d : ℚ) : Option ℚ → Bool
  | none => true
  | some m => decide (d ≤ m)

/-- `rateMove` from GameReview: first threshold bucket that contains the
score differential. -/
def rateMove (scoreDiff : ℚ) : String :=
  match THRESHOLDS.find? (fun t => leThreshold scoreDiff t.1) with
  | some t => t.2
  | none => "blunder"

/-- One entry of `gs.turnHistory`. -/
structure Turn where
  player : Player
  dice : List Int
  boardBefore : List Int
  borneOffBefore : BorneOff
  cubeValue : Int
  moves : List Move

/-- One graded turn produced by `analyzeGame` (the original turn fields plus
the reference sequence, differential, and rating). -/
structure Grade where
  turn : Turn
  bestSeq : List Move
  scoreDiff : Int
  rating : String

structure Accuracy where
  white : Int
  black : Int

structure ReviewResult where
  grades : List Grade
  accuracy : Accuracy

/-- The type of the AI strategy consumed by `analyzeGame`
(`chooseSequence(sequences, board, borneOff, player)`); `none` models a
null/undefined return, which the reviewer replaces by the empty sequence. -/
def AIChoose : Type :=
  List (List Move) → List Int → BorneOff → Player → Option (List Move)

/-- The per-turn body of `analyzeGame`: recompute the legal sequences, ask
the AI for the reference sequence, apply both the played and the reference
sequences, score both positions, and bucket the (player-perspective,
floored-at-zero) differential. -/
def gradeTurn (ai : AIChoose) (turn : Turn) : Grade :=
  let allSeqs := getLegalMoveSequences turn.boardBefore turn.borneOffBefore
    turn.dice turn.player
  let bestSeq := (ai allSeqs turn.boardBefore turn.borneOffBefore turn.player).getD []
  let actual := applySequence turn.boardBefore turn.borneOffBefore turn.moves turn.player
  let bestR := applySequence turn.boardBefore turn.borneOffBefore bestSeq turn.player
  let scoreActual := evaluate actual.board actual.borneOff
  let scoreBest := evaluate bestR.board bestR.borneOff
  let d0 := scoreBest - scoreActual
  let scoreDiff := if turn.player = .black then -d0 else d0
  let rating := rateMove ((max 0 scoreDiff : Int) : ℚ)
  ⟨turn, bestSeq, scoreDiff, rating⟩

/-- The grading loop of `analyzeGame`: the graded turns in order, plus the
per-player turn and best-or-good counters. -/
def analyzeLoop (ai : AIChoose) : List Turn → List Grade × Nat × Nat × Nat × Nat
  | [] => ([], 0, 0, 0, 0)
  | t :: ts =>
    let g := gradeTurn ai t
    let rest := analyzeLoop ai ts
    if t.player = .white then
      (g :: rest.1, rest.2.1 + 1,
        (if g.rating = "best" ∨ g.rating = "good" then rest.2.2.1 + 1 else rest.2.2.1),
        rest.2.2.2.1, rest.2.2.2.2)
    else
      (g :: rest.1, rest.2.1, rest.2.2.1, rest.2.2.2.1 + 1,
        (if g.rating = "best" ∨ g.rating = "good" then rest.2.2.2.2 + 1 else rest.2.2.2.2))

/-- `analyzeGame` from GameReview: grade every recorded turn and aggregate
per-player accuracy as the rounded percentage of best-or-good turns (100 when
a player had no turns). -/
def analyzeGame (turnHistory : List Turn) (ai : AIChoose) : ReviewResult :=
  let r := analyzeLoop ai turnHistory
  { grades := r.1
    accuracy :=
      { white := if r.2.1 > 0 then round ((r.2.2.1 : ℚ) / (r.2.1 : ℚ) * 100) else 100
        black := if r.2.2.2.1 > 0 then round ((r.2.2.2.2 : ℚ) / (r.2.2.2.1 : ℚ) * 100) else 100 } }

/-- `GreedyAI.chooseSequence`.  The tie-break noise drawn from
`Math.random()` for the candidate at position `k` is modelled by `noise k`;
the loop keeps the strictly best perturbed score, starting from `-Infinity`
(modelled by `⊥` in `WithBot ℚ`). -/
def chooseSequenceGreedy (sequences : Option (List (List Move)))
    (board : List Int) (borneOff : BorneOff) (player : Player)
    (noise : Nat → ℚ) : List Move :=
  match sequences with
  | none => []
  | some seqs =>
    if seqs = [] then []
    else
      let st := seqs.foldl
        (fun (acc : Nat × Option (List Move) × WithBot ℚ) seq =>
          let (k, best, bestScore) := acc
          let r := applySequence board borneOff seq player
          let score : ℚ := (evaluate r.board r.borneOff : ℚ)
          let score := if player = .black then -score else score
          let score := score + (noise k - 1/2) * (1/2)
          if bestScore < (score : WithBot ℚ) then (k + 1, some seq, (score : WithBot ℚ))
          else (k + 1, best, bestScore))
        (0, none, ⊥)
      match st.2.1 with
      | some s => s
      | none => seqs.getD 0 []

/-- `RandomAI.chooseSequence`: pick index `floor(r * length)` where `r`
models the `Math.random()` draw. -/
def chooseSequenceRandom (sequences : Option (List (List Move))) (r : ℚ) :
    List Move :=
  match sequences with
  | none => []
  | some seqs =>
    if seqs = [] then []
    else
      let idx := (⌊r * (seqs.length : ℚ)⌋).toNat
      seqs.getD idx []

/-- The memory shape of one `applyMoveToBoard` call: the caller's array and
record, and the locally constructed copies that every write of the function
body targets (`const b = [...board]; const bo = { ...borneOff }`). -/
structure JSMem where
  board : List Int
  borneOff : BorneOff
  b : List Int
  bo : BorneOff

/-- `applyMoveToBoard` replayed statement by statement over a `JSMem`: the
clone step initialises `b`/`bo`, and each subsequent assignment of the source
writes to `b` or `bo`; the caller's `board`/`borneOff` cells are named by no
assignment. -/
def applyMoveToBoardMem (board : List Int) (borneOff : BorneOff) (move : Move)
    (player : Player) : JSMem :=
  let m0 : JSMem := { board := board, borneOff := borneOff, b := board, bo := borneOff }
  let m1 :=
    if move.from' = 24 then { m0 with b := bset m0.b 24 (bget m0.b 24 - 1) }
    else if move.from' = 25 then { m0 with b := bset m0.b 25 (bget m0.b 25 - 1) }
    else if player = .white then
      { m0 with b := bset m0.b move.from' (bget m0.b move.from' - 1) }
    else { m0 with b := bset m0.b move.from' (bget m0.b move.from' + 1) }
  if move.to' = 26 then
    if player = .white then { m1 with bo := { m1.bo with white := m1.bo.white + 1 } }
    else { m1 with bo := { m1.bo with black := m1.bo.black + 1 } }
  else
    let m2 :=
      if player = .white ∧ bget m1.b move.to' = -1 then
        { m1 with b := bset (bset m1.b move.to' 0) 25 (bget (bset m1.b move.to' 0) 25 + 1) }
      else if player = .black ∧ bget m1.b move.to' = 1 then
        { m1 with b := bset (bset m1.b move.to' 0) 24 (bget (bset m1.b move.to' 0) 24 + 1) }
      else m1
    if player = .white then { m2 with b := bset m2.b move.to' (bget m2.b move.to' + 1) }
    else { m2 with b := bset m2.b move.to' (bget m2.b move.to' - 1) }

/-! ## Claim theorems -/

/-- C8: after `initializeBoard` the board holds exactly the standard opening
entries (index 0: −2, 5: 5, 7: 3, 11: −5, 12: 5, 16: −3, 18: −5, 23: 2), all
other indices including both bars are 0, and both players' pip counts are
167. -/
theorem claim8_opening_position :
    initializeBoard =
      [-2, 0, 0, 0, 0, 5, 0, 3, 0, 0, 0, -5, 5, 0, 0, 0, -3, 0, -5, 0, 0, 0, 0, 2, 0, 0] ∧
    pipCount initializeBoard .white = 167 ∧ pipCount initializeBoard .black = 167 := by
  refine ⟨by decide, by decide, by decide⟩

/-- C6: with a double pending from player `p`, `acceptDouble` doubles the
cube value, hands ownership to `p`'s opponent, returns to the rolling phase
with the same player to move; `declineDouble` reports `p` as winner for the
pre-decline cube value and leaves the cube untouched; and from a centred
value-1 cube an offer/accept cycle gives value 2 owned by the accepting
player, and a second cycle gives value 4. -/
theorem claim6_doubling_cube (gs : CubeGS) (p : Player)
    (h : gs.doubleOfferedBy = some p) :
    (acceptDouble gs).cube.value = 2 * gs.cube.value ∧
    (acceptDouble gs).cube.owner = some (opponent p) ∧
    (acceptDouble gs).phase = "rolling" ∧
    (acceptDouble gs).currentPlayer = gs.currentPlayer ∧
    (declineDouble gs).2.1 = some p ∧
    (declineDouble gs).2.2 = gs.cube.value ∧
    (declineDouble gs).1.cube = gs.cube ∧
    (∀ gs' : CubeGS, gs'.cube = ⟨1, none⟩ →
      (acceptDouble (offerDouble gs')).cube = ⟨2, some (opponent gs'.currentPlayer)⟩ ∧
      ∀ q : Player,
        (acceptDouble (offerDouble
          { acceptDouble (offerDouble gs') with currentPlayer := q })).cube.value = 4) := by
  refine ⟨?_, ?_, rfl, rfl, ?_, rfl, rfl, ?_⟩
  · simp [acceptDouble, Int.mul_comm]
  · cases p <;> simp [acceptDouble, opponent, h]
  · simp [declineDouble, h]
  · intro gs' hc
    constructor
    · cases hcur : gs'.currentPlayer <;>
        simp [acceptDouble, offerDouble, opponent, hc, hcur]
    · intro q
      cases q <;> cases hcur : gs'.currentPlayer <;>
        simp [acceptDouble, offerDouble, opponent, hc, hcur]

/-- Closed instance of C6 at a concrete pending double. -/
theorem claim6_witness :
    (acceptDouble ⟨⟨1, none⟩, "doubling", Player.white, some Player.white⟩).cube.owner =
      some (opponent Player.white) :=
  (claim6_doubling_cube ⟨⟨1, none⟩, "doubling", Player.white, some Player.white⟩
    Player.white rfl).2.1

/-- C9: replaying `applyMoveToBoard` statement by statement over an explicit
memory shows the caller's board and borneOff cells are never written (they
compare equal to their original values afterwards), while the returned pair
— built in the local clones — is exactly the pure `applyMoveToBoard`
result. -/
theorem claim9_apply_move_pure (board : List Int) (borneOff : BorneOff)
    (move : Move) (p : Player) :
    (applyMoveToBoardMem board borneOff move p).board = board ∧
    (applyMoveToBoardMem board borneOff move p).borneOff = borneOff ∧
    (applyMoveToBoardMem board borneOff move p).b =
      (applyMoveToBoard board borneOff move p).board ∧
    (applyMoveToBoardMem board borneOff move p).bo =
      (applyMoveToBoard board borneOff move p).borneOff := by
  unfold applyMoveToBoardMem applyMoveToBoard
  refine ⟨?_, ?_, ?_, ?_⟩ <;>
    simp only [apply_ite JSMem.board, apply_ite JSMem.borneOff, apply_ite JSMem.b,
      apply_ite JSMem.bo, apply_ite MoveResult.board, apply_ite MoveResult.borneOff,
      ite_self]

/-- C2: while a player has a checker on the bar, `singleDieMoves` returns
only bar-entry moves: every returned move leaves from that player's bar index
and enters at index 24−die (white) or die−1 (black). -/
theorem claim2_bar_priority (board : List Int) (borneOff : BorneOff)
    (die : Int) (p : Player) (hd1 : 1 ≤ die) (hd6 : die ≤ 6)
    (hbar : bgetN board (match p with | .white => 24 | .black => 25) > 0) :
    ∀ m ∈ singleDieMoves board borneOff die p,
      m.from' = (match p with | .white => 24 | .black => 25) ∧
      m.to' = (match p with | .white => 24 - die | .black => die - 1) := by
  intro m hm
  cases p with
  | white =>
    simp only [singleDieMoves] at hm
    rw [if_pos hbar] at hm
    split at hm
    · simp only [List.mem_singleton] at hm
      subst hm; exact ⟨rfl, rfl⟩
    · cases hm
  | black =>
    simp only [singleDieMoves] at hm
    rw [if_pos hbar] at hm
    split at hm
    · simp only [List.mem_singleton] at hm
      subst hm; exact ⟨rfl, rfl⟩
    · cases hm

/-- Closed instance of C2: with a white checker on the bar and die 3, the
returned entry move leaves the bar for index 21. -/
theorem claim2_witness :
    (⟨24, 21, 3, false⟩ : Move).from' = 24 ∧ (⟨24, 21, 3, false⟩ : Move).to' = 24 - 3 :=
  claim2_bar_priority
    [0, 0, 0, 0, 0, 0, 0, 0, 0, 0, 0, 0, 0, 0, 0, 0, 0, 0, 0, 0, 0, 0, 0, 0, 1, 0]
    ⟨0, 0⟩ 3 .white (by decide) (by decide) (by decide) ⟨24, 21, 3, false⟩ (by decide)

lemma foldl_pres {α β : Type _} (P : β → Prop) (f : β → α → β) :
    ∀ (l : List α) (init : β), P init →
      (∀ acc a, a ∈ l → P acc → P (f acc a)) → P (l.foldl f init) := by
  intro l
  induction l with
  | nil => intro init h _; simpa using h
  | cons a t ih =>
    intro init h hstep
    simp only [List.foldl_cons]
    exact ih (f init a)
      (hstep init a (by simp) h)
      (fun acc b hb hacc => hstep acc b (by simp [hb]) hacc)

lemma getD_zero_mem {α : Type _} (l : List α) (d : α) (h : l ≠ []) :
    l.getD 0 d ∈ l := by
  cases l with
  | nil => exact absurd rfl h
  | cons a t => simp [List.getD]

/-- C10: both AIs always answer with one of the offered sequences, and
answer the empty sequence when the input list is empty or absent, for every
outcome of the random draws. -/
theorem claim10_ai_returns_candidate (board : List Int) (borneOff : BorneOff)
    (p : Player) (noise : Nat → ℚ) (seqs : List (List Move)) (r : ℚ)
    (h0 : 0 ≤ r) (h1 : r < 1) :
    (seqs ≠ [] → chooseSequenceGreedy (some seqs) board borneOff p noise ∈ seqs) ∧
    chooseSequenceGreedy none board borneOff p noise = [] ∧
    chooseSequenceGreedy (some []) board borneOff p noise = [] ∧
    (seqs ≠ [] → chooseSequenceRandom (some seqs) r ∈ seqs) ∧
    chooseSequenceRandom none r = [] ∧
    chooseSequenceRandom (some []) r = [] := by
  refine ⟨?_, rfl, rfl, ?_, rfl, rfl⟩
  · intro hne
    simp only [chooseSequenceGreedy]
    rw [if_neg hne]
    have hinv :
        ∀ st : Nat × Option (List Move) × WithBot ℚ,
          (st.2.1 = none ∨ ∃ s ∈ seqs, st.2.1 = some s) →
          (match st.2.1 with
            | some s => s
            | none => seqs.getD 0 []) ∈ seqs := by
      intro st hst
      rcases hst with h | ⟨s, hs, heq⟩
      · rw [h]; exact getD_zero_mem _ _ hne
      · rw [heq]; exact hs
    apply hinv
    apply foldl_pres (fun st : Nat × Option (List Move) × WithBot ℚ =>
      st.2.1 = none ∨ ∃ s ∈ seqs, st.2.1 = some s)
    · exact Or.inl rfl
    · intro acc a ha hacc
      dsimp only
      split_ifs <;> first
        | exact Or.inr ⟨a, ha, rfl⟩
        | exact hacc
  · intro hne
    simp only [chooseSequenceRandom]
    rw [if_neg hne]
    have hlen : 0 < seqs.length := List.length_pos.mpr hne
    have hflt : ⌊r * (seqs.length : ℚ)⌋ < (seqs.length : Int) := by
      apply Int.floor_lt.mpr
      push_cast
      calc r * (seqs.length : ℚ) < 1 * (seqs.length : ℚ) := by
            apply mul_lt_mul_of_pos_right h1
            exact_mod_cast hlen
        _ = (seqs.length : ℚ) := one_mul _
    have hidx : (⌊r * (seqs.length : ℚ)⌋).toNat < seqs.length := by omega
    rw [List.getD_eq_getElem _ _ hidx]
    exact List.getElem_mem hidx

/-- Closed instance of C10 on a one-candidate list. -/
theorem claim10_witness :
    chooseSequenceGreedy (some [[]]) initializeBoard ⟨0, 0⟩ .white (fun _ => 0) ∈
      ([[]] : List (List Move)) ∧
    chooseSequenceRandom (some [[]]) 0 ∈ ([[]] : List (List Move)) :=
  ⟨(claim10_ai_returns_candidate initializeBoard ⟨0, 0⟩ .white (fun _ => 0) [[]] 0
      (by norm_num) (by norm_num)).1 (by decide),
   (claim10_ai_returns_candidate initializeBoard ⟨0, 0⟩ .white (fun _ => 0) [[]] 0
      (by norm_num) (by norm_num)).2.2.2.1 (by decide)⟩

@[simp] lemma gradeTurn_turn (ai : AIChoose) (t : Turn) : (gradeTurn ai t).turn = t := rfl

lemma analyzeLoop_counts (ai : AIChoose) (ts : List Turn) :
    (analyzeLoop ai ts).2.1 =
      ((analyzeLoop ai ts).1.filter (fun g => decide (g.turn.player = .white))).length ∧
    (analyzeLoop ai ts).2.2.1 =
      ((analyzeLoop ai ts).1.filter (fun g =>
        decide (g.turn.player = .white ∧ (g.rating = "best" ∨ g.rating = "good")))).length ∧
    (analyzeLoop ai ts).2.2.2.1 =
      ((analyzeLoop ai ts).1.filter (fun g => decide (g.turn.player = .black))).length ∧
    (analyzeLoop ai ts).2.2.2.2 =
      ((analyzeLoop ai ts).1.filter (fun g =>
        decide (g.turn.player = .black ∧ (g.rating = "best" ∨ g.rating = "good")))).length := by
  induction ts with
  | nil => simp [analyzeLoop]
  | cons t ts ih =>
    obtain ⟨ih1, ih2, ih3, ih4⟩ := ih
    cases hp : t.player <;>
      by_cases hg : (gradeTurn ai t).rating = "best" ∨ (gradeTurn ai t).rating = "good" <;>
      simp [analyzeLoop, hp, hg, ih1, ih2, ih3, ih4]

/-- C7: `rateMove` maps a non-negative differential `d` to 'best' when
`d ≤ 3`, 'good' when `3 < d ≤ 8`, 'inaccuracy' when `8 < d ≤ 18`, 'mistake'
when `18 < d ≤ 35` and 'blunder' when `d > 35`; and for each player,
`analyzeGame` reports accuracy as the (rounded) percentage of that player's
turns rated best-or-good, with 100 for a player who had no turns. -/
theorem claim7_rating_and_accuracy :
    (∀ d : ℚ, 0 ≤ d →
      (d ≤ 3 → rateMove d = "best") ∧
      (3 < d → d ≤ 8 → rateMove d = "good") ∧
      (8 < d → d ≤ 18 → rateMove d = "inaccuracy") ∧
      (18 < d → d ≤ 35 → rateMove d = "mistake") ∧
      (35 < d → rateMove d = "blunder")) ∧
    (∀ (hist : List Turn) (ai : AIChoose),
      (analyzeGame hist ai).accuracy.white =
        (if ((analyzeGame hist ai).grades.filter
              (fun g => decide (g.turn.player = .white))).length = 0 then 100
         else round
          ((((analyzeGame hist ai).grades.filter (fun g =>
              decide (g.turn.player = .white ∧
                (g.rating = "best" ∨ g.rating = "good")))).length : ℚ) /
            (((analyzeGame hist ai).grades.filter
              (fun g => decide (g.turn.player = .white))).length : ℚ) * 100)) ∧
      (analyzeGame hist ai).accuracy.black =
        (if ((analyzeGame hist ai).grades.filter
              (fun g => decide (g.turn.player = .black))).length = 0 then 100
         else round
          ((((analyzeGame hist ai).grades.filter (fun g =>
              decide (g.turn.player = .black ∧
                (g.rating = "best" ∨ g.rating = "good")))).length : ℚ) /
            (((analyzeGame hist ai).grades.filter
              (fun g => decide (g.turn.player = .black))).length : ℚ) * 100))) := by
  constructor
  · intro d _
    refine ⟨?_, ?_, ?_, ?_, ?_⟩
    · intro h3
      simp [rateMove, THRESHOLDS, leThreshold, h3]
    · intro h3 h8
      simp [rateMove, THRESHOLDS, leThreshold, not_le.mpr h3, h8]
    · intro h8 h18
      simp [rateMove, THRESHOLDS, leThreshold, not_le.mpr (by linarith : (3:ℚ) < d),
        not_le.mpr h8, h18]
    · intro h18 h35
      simp [rateMove, THRESHOLDS, leThreshold, not_le.mpr (by linarith : (3:ℚ) < d),
        not_le.mpr (by linarith : (8:ℚ) < d), not_le.mpr h18, h35]
    · intro h35
      simp [rateMove, THRESHOLDS, leThreshold, not_le.mpr (by linarith : (3:ℚ) < d),
        not_le.mpr (by linarith : (8:ℚ) < d), not_le.mpr (by linarith : (18:ℚ) < d),
        not_le.mpr h35]
  · intro hist ai
    obtain ⟨h1, h2, h3, h4⟩ := analyzeLoop_counts ai hist
    have hg : (analyzeGame hist ai).grades = (analyzeLoop ai hist).1 := rfl
    constructor
    · rw [hg, ← h1, ← h2]
      show (if (analyzeLoop ai hist).2.1 > 0 then _ else _) = _
      rcases Nat.eq_zero_or_pos (analyzeLoop ai hist).2.1 with h0 | h0
      · simp [h0]
      · simp [h0, Nat.pos_iff_ne_zero.mp h0]
    · rw [hg, ← h3, ← h4]
      show (if (analyzeLoop ai hist).2.2.2.1 > 0 then _ else _) = _
      rcases Nat.eq_zero_or_pos (analyzeLoop ai hist).2.2.2.1 with h0 | h0
      · simp [h0]
      · simp [h0, Nat.pos_iff_ne_zero.mp h0]

/-- Closed instance of C7: a differential of 2 is 'best', and an empty
history reports 100% accuracy. -/
theorem claim7_witness :
    rateMove 2 = "best" ∧
    (analyzeGame [] (fun _ _ _ _ => none)).accuracy.white = 100 := by
  constructor
  · exact (claim7_rating_and_accuracy.1 2 (by norm_num)).1 (by norm_num)
  · have h := (claim7_rating_and_accuracy.2 [] (fun _ _ _ _ => none)).1
    simpa [analyzeGame, analyzeLoop] using h

lemma le_foldl_max : ∀ (l : List ℕ) (a : ℕ), ∀ x ∈ l, x ≤ l.foldl Nat.max a := by
  intro l
  induction l with
  | nil => intro a x hx; cases hx
  | cons b t ih =>
    intro a x hx
    rcases List.mem_cons.mp hx with h | h
    · subst h
      calc x ≤ Nat.max a x := Nat.le_max_right a x
        _ ≤ t.foldl Nat.max (Nat.max a x) := init_le_foldl_max t _
    · exact ih (Nat.max a b) x h
where
  init_le_foldl_max : ∀ (t : List ℕ) (a : ℕ), a ≤ t.foldl Nat.max a := by
    intro t
    induction t with
    | nil => intro a; exact Nat.le_refl a
    | cons b t ih =>
      intro a
      calc a ≤ Nat.max a b := Nat.le_max_left a b
        _ ≤ t.foldl Nat.max (Nat.max a b) := ih _

lemma foldl_max_mem : ∀ (l : List ℕ) (a : ℕ),
    l.foldl Nat.max a = a ∨ l.foldl Nat.max a ∈ l := by
  intro l
  induction l with
  | nil => intro a; exact Or.inl rfl
  | cons b t ih =>
    intro a
    rcases ih (Nat.max a b) with h | h
    · rcases Nat.le_total a b with hm | hm
      · refine Or.inr ?_
        have hmax : a.max b = b :=
          Nat.le_antisymm (Nat.max_le.mpr ⟨hm, Nat.le_refl b⟩) (Nat.le_max_right a b)
        rw [List.foldl_cons, h, hmax]
        exact List.mem_cons_self b t
      · refine Or.inl ?_
        have hmax : a.max b = a :=
          Nat.le_antisymm (Nat.max_le.mpr ⟨Nat.le_refl a, hm⟩) (Nat.le_max_left a b)
        rw [List.foldl_cons, h, hmax]
    · exact Or.inr (List.mem_cons_of_mem b h)

lemma generateAllAux_ne_nil (fuel : ℕ) (b : List Int) (bo : BorneOff)
    (dl : List Int) (p : Player) (pre : List Move) :
    generateAllAux fuel b bo dl p pre ≠ [] := by
  match fuel, dl with
  | _, [] => simp [generateAllAux]
  | 0, _ :: _ => simp [generateAllAux]
  | fuel + 1, d :: ds =>
    simp only [generateAllAux]
    split
    · simp
    · assumption

lemma generateAllAux_length_ge :
    ∀ (fuel : ℕ) (b : List Int) (bo : BorneOff) (dl : List Int) (p : Player)
      (pre s : List Move), s ∈ generateAllAux fuel b bo dl p pre →
      pre.length ≤ s.length := by
  intro fuel
  induction fuel with
  | zero =>
    intro b bo dl p pre s hs
    cases dl <;> simp [generateAllAux] at hs <;> simp [hs]
  | succ n ih =>
    intro b bo dl p pre s hs
    cases dl with
    | nil => simp [generateAllAux] at hs; simp [hs]
    | cons d ds =>
      simp only [generateAllAux] at hs
      split at hs
      · simp at hs; simp [hs]
      · rcases List.mem_flatMap.mp hs with ⟨i, _, hinner⟩
        split at hinner
        · cases hinner
        · rcases List.mem_flatMap.mp hinner with ⟨m, _, hrec⟩
          have h := ih _ _ _ _ _ _ hrec
          simp only [List.length_append, List.length_cons, List.length_nil] at h
          omega

lemma getD_mem_of_lt {l : List Int} {i : ℕ} (h : i < l.length) : l.getD i 0 ∈ l := by
  rw [List.getD_eq_getElem _ _ h]
  exact List.getElem_mem h

lemma generateAllAux_forced (fuel : ℕ) (b : List Int) (bo : BorneOff)
    (dl : List Int) (p : Player) (pre : List Move)
    (h : ∀ dv ∈ dl, singleDieMoves b bo dv p = []) :
    generateAllAux fuel b bo dl p pre = [pre] := by
  match fuel, dl with
  | _, [] => simp [generateAllAux]
  | 0, _ :: _ => simp [generateAllAux]
  | fuel + 1, d :: ds =>
    simp only [generateAllAux]
    have hseq : ((List.range (d :: ds).length).flatMap (fun i =>
        if (d :: ds).getD i 0 ∈ (d :: ds).take i then []
        else
          (singleDieMoves b bo ((d :: ds).getD i 0) p).flatMap (fun m =>
            generateAllAux fuel (applyMoveToBoard b bo m p).board
              (applyMoveToBoard b bo m p).borneOff ((d :: ds).eraseIdx i) p
              (pre ++ [m])))) = [] := by
      apply List.flatMap_eq_nil_iff.mpr
      intro i hi
      split
      · rfl
      · rw [h _ (getD_mem_of_lt (List.mem_range.mp hi))]
        rfl
    rw [hseq]
    rfl

lemma exists_first_idx {d : Int} {dl : List Int} (h : d ∈ dl) :
    ∃ i, i < dl.length ∧ dl.getD i 0 = d ∧ d ∉ dl.take i := by
  induction dl with
  | nil => cases h
  | cons a t ih =>
    by_cases hd : d = a
    · exact ⟨0, by simp, by simp [hd], by simp⟩
    · have hdt : d ∈ t := by
        rcases List.mem_cons.mp h with h1 | h1
        · exact absurd h1 hd
        · exact h1
      rcases ih hdt with ⟨i, hi, hg, hn⟩
      refine ⟨i + 1, by simpa using Nat.succ_lt_succ hi, by simpa using hg, ?_⟩
      simp only [List.take_succ_cons, List.mem_cons]
      rintro (h1 | h1)
      · exact hd h1
      · exact hn h1

lemma generateAllAux_uses (n : ℕ) (b : List Int) (bo : BorneOff)
    (d : Int) (ds : List Int) (p : Player) (pre : List Move)
    (hex : ∃ dv ∈ d :: ds, singleDieMoves b bo dv p ≠ []) :
    ∀ s ∈ generateAllAux (n + 1) b bo (d :: ds) p pre,
      pre.length + 1 ≤ s.length := by
  intro s hs
  simp only [generateAllAux] at hs
  rcases hex with ⟨dv, hdv, hmoves⟩
  rcases exists_first_idx hdv with ⟨i, hi, hg, hn⟩
  have hbranch : ((singleDieMoves b bo ((d :: ds).getD i 0) p).flatMap (fun m =>
      generateAllAux n (applyMoveToBoard b bo m p).board
        (applyMoveToBoard b bo m p).borneOff ((d :: ds).eraseIdx i) p
        (pre ++ [m]))) ≠ [] := by
    rw [hg]
    intro hcon
    rcases List.exists_mem_of_ne_nil _ hmoves with ⟨m, hm⟩
    have := List.flatMap_eq_nil_iff.mp hcon m hm
    exact generateAllAux_ne_nil _ _ _ _ _ _ this
  have hseq : ((List.range (d :: ds).length).flatMap (fun i =>
      if (d :: ds).getD i 0 ∈ (d :: ds).take i then []
      else
        (singleDieMoves b bo ((d :: ds).getD i 0) p).flatMap (fun m =>
          generateAllAux n (applyMoveToBoard b bo m p).board
            (applyMoveToBoard b bo m p).borneOff ((d :: ds).eraseIdx i) p
            (pre ++ [m])))) ≠ [] := by
    intro hcon
    have := List.flatMap_eq_nil_iff.mp hcon i (List.mem_range.mpr hi)
    rw [if_neg (by rw [hg]; exact hn)] at this
    exact hbranch this
  rw [if_neg hseq] at hs
  rcases List.mem_flatMap.mp hs with ⟨j, _, hinner⟩
  split at hinner
  · cases hinner
  · rcases List.mem_flatMap.mp hinner with ⟨m, _, hrec⟩
    have h := generateAllAux_length_ge _ _ _ _ _ _ _ hrec
    simp only [List.length_append, List.length_cons, List.length_nil] at h
    omega

lemma mem_getLegal_sub {board : List Int} {bo : BorneOff} {dice : List Int}
    {p : Player} {s : List Move}
    (hs : s ∈ getLegalMoveSequences board bo dice p) :
    s ∈ generateAll board bo dice p [] := by
  have hni : generateAll board bo dice p [] ≠ [] := generateAllAux_ne_nil _ _ _ _ _ _
  simp only [getLegalMoveSequences] at hs
  rw [if_neg hni] at hs
  split at hs
  · split at hs
    · exact (List.mem_filter.mp hs).1
    · exact (List.mem_filter.mp (List.mem_filter.mp hs).1).1
  · exact (List.mem_filter.mp hs).1

/-- C3: every sequence returned by `getLegalMoveSequences` has length equal
to the maximum length attained over all generated legal sequences; and when
that maximum is 1, the roll holds two distinct values and some maximal
sequence uses the higher value, every returned sequence uses the higher
value. -/
theorem claim3_maximal_and_higher_die (board : List Int) (bo : BorneOff)
    (dice : List Int) (p : Player) :
    (∀ t ∈ generateAll board bo dice p [],
      t.length ≤ ((generateAll board bo dice p []).map List.length).foldl Nat.max 0) ∧
    (∃ t ∈ generateAll board bo dice p [],
      t.length = ((generateAll board bo dice p []).map List.length).foldl Nat.max 0) ∧
    (∀ s ∈ getLegalMoveSequences board bo dice p,
      s.length = ((generateAll board bo dice p []).map List.length).foldl Nat.max 0) ∧
    (((generateAll board bo dice p []).map List.length).foldl Nat.max 0 = 1 →
      dice.length = 2 → dice.getD 0 0 ≠ dice.getD 1 0 →
      (∃ t ∈ generateAll board bo dice p [],
        t.length = 1 ∧ headDie t = max (dice.getD 0 0) (dice.getD 1 0)) →
      ∀ s ∈ getLegalMoveSequences board bo dice p,
        headDie s = max (dice.getD 0 0) (dice.getD 1 0)) := by
  have hni : generateAll board bo dice p [] ≠ [] := generateAllAux_ne_nil _ _ _ _ _ _
  refine ⟨?_, ?_, ?_, ?_⟩
  · intro t ht
    exact le_foldl_max _ 0 _ (List.mem_map_of_mem List.length ht)
  · rcases foldl_max_mem ((generateAll board bo dice p []).map List.length) 0 with h | h
    · rcases List.exists_mem_of_ne_nil _ hni with ⟨t, ht⟩
      refine ⟨t, ht, ?_⟩
      have := le_foldl_max _ 0 _ (List.mem_map_of_mem List.length ht)
      omega
    · rcases List.mem_map.mp h with ⟨t, ht, hlen⟩
      exact ⟨t, ht, hlen⟩
  · intro s hs
    simp only [getLegalMoveSequences] at hs
    rw [if_neg hni] at hs
    split at hs
    · split at hs
      · exact of_decide_eq_true (List.mem_filter.mp hs).2
      · exact of_decide_eq_true (List.mem_filter.mp (List.mem_filter.mp hs).1).2
    · exact of_decide_eq_true (List.mem_filter.mp hs).2
  · intro h1 h2 h3 hex s hs
    simp only [getLegalMoveSequences] at hs
    rw [if_neg hni] at hs
    rw [if_pos ⟨h1, h2, h3⟩] at hs
    rcases hex with ⟨t, ht, htlen, hthigh⟩
    have htbest : t ∈ (generateAll board bo dice p []).filter
        (fun s => decide (s.length =
          ((generateAll board bo dice p []).map List.length).foldl Nat.max 0)) := by
      apply List.mem_filter.mpr
      exact ⟨ht, decide_eq_true (by omega)⟩
    have htw : t ∈ ((generateAll board bo dice p []).filter
        (fun s => decide (s.length =
          ((generateAll board bo dice p []).map List.length).foldl Nat.max 0))).filter
        (fun s => decide (headDie s = max (dice.getD 0 0) (dice.getD 1 0))) := by
      apply List.mem_filter.mpr
      exact ⟨htbest, decide_eq_true hthigh⟩
    rw [if_neg (List.ne_nil_of_mem htw)] at hs
    exact of_decide_eq_true (List.mem_filter.mp hs).2

/-- Closed instance of C3: one white checker on the 1-point with roll (6,5);
only one die can be used and the returned sequence uses the 6. -/
theorem claim3_witness :
    headDie [(⟨0, 26, 6, false⟩ : Move)] = max ((6 : Int)) 5 :=
  (claim3_maximal_and_higher_die
      [1, 0, 0, 0, 0, 0, 0, 0, 0, 0, 0, 0, 0, 0, 0, 0, 0, 0, 0, 0, 0, 0, 0, 0, 0, 0]
      ⟨0, 0⟩ [6, 5] .white).2.2.2 (by decide) (by decide) (by decide)
    ⟨[⟨0, 26, 6, false⟩], by decide, by decide, by decide⟩
    [⟨0, 26, 6, false⟩] (by decide)

/-- C4: for a non-empty roll, `hasNoMoves` holds exactly when
`getLegalMoveSequences` returns the single empty sequence (the forced
pass). -/
theorem claim4_hasNoMoves_iff_forced_pass (board : List Int) (bo : BorneOff)
    (dice : List Int) (p : Player) (hne : dice ≠ []) :
    hasNoMoves board bo dice p = true ↔
      getLegalMoveSequences board bo dice p = [[]] := by
  constructor
  · intro h
    have hall : ∀ dv ∈ dice, singleDieMoves board bo dv p = [] := by
      intro dv hdv
      have hd := List.all_eq_true.mp h dv (List.mem_dedup.mpr hdv)
      exact of_decide_eq_true hd
    have hgen : generateAll board bo dice p [] = [[]] :=
      generateAllAux_forced _ _ _ _ _ _ hall
    simp [getLegalMoveSequences, hgen]
  · intro hres
    rw [hasNoMoves, List.all_eq_true]
    intro dv hdv
    apply decide_eq_true
    by_contra hmv
    cases dice with
    | nil => exact hne rfl
    | cons d ds =>
      have hmem : ([] : List Move) ∈ getLegalMoveSequences board bo (d :: ds) p := by
        rw [hres]; exact List.mem_singleton_self _
      have hsub := mem_getLegal_sub hmem
      have := generateAllAux_uses ds.length board bo d ds p [] 
        ⟨dv, List.mem_dedup.mp hdv, hmv⟩ [] hsub
      simp at this

/-- Closed instance of C4 at the opening position with a single die. -/
theorem claim4_witness :
    hasNoMoves initializeBoard ⟨0, 0⟩ [3] .white = true ↔
      getLegalMoveSequences initializeBoard ⟨0, 0⟩ [3] .white = [[]] :=
  claim4_hasNoMoves_iff_forced_pass initializeBoard ⟨0, 0⟩ [3] .white (by decide)

lemma runW_pos (b : List Int) (n : ℕ) :
    1 ≤ runW b n ↔ (0 < n ∧ bgetN b (n - 1) ≥ 2) := by
  cases n with
  | zero => simp [runW]
  | succ k =>
    simp only [runW]
    by_cases hk : bgetN b k ≥ 2 <;> simp [hk]

lemma runB_pos (b : List Int) (n : ℕ) :
    1 ≤ runB b n ↔ (0 < n ∧ bgetN b (n - 1) ≤ -2) := by
  cases n with
  | zero => simp [runB]
  | succ k =>
    simp only [runB]
    by_cases hk : bgetN b k ≤ -2 <;> simp [hk]

lemma pairCountW_succ (b : List Int) (n : ℕ) :
    pairCountW b (n + 1) = pairCountW b n +
      (if 1 ≤ n ∧ bgetN b n ≥ 2 ∧ bgetN b (n - 1) ≥ 2 then 1 else 0) := by
  simp only [pairCountW, List.range_succ, List.countP_append, List.countP_cons,
    List.countP_nil]
  split <;> rename_i h
  · rw [of_decide_eq_true h |> if_pos]
  · rw [if_neg (fun hp => h (decide_eq_true hp))]

lemma pairCountB_succ (b : List Int) (n : ℕ) :
    pairCountB b (n + 1) = pairCountB b n +
      (if 1 ≤ n ∧ bgetN b n ≤ -2 ∧ bgetN b (n - 1) ≤ -2 then 1 else 0) := by
  simp only [pairCountB, List.range_succ, List.countP_append, List.countP_cons,
    List.countP_nil]
  split <;> rename_i h
  · rw [of_decide_eq_true h |> if_pos]
  · rw [if_neg (fun hp => h (decide_eq_true hp))]

lemma primeFold_eq (b : List Int) : ∀ n : ℕ,
    (List.range n).foldl (primeStep b) (0, 0, 0, 0) =
      (6 * (pairCountW b n : Int), 6 * (pairCountB b n : Int), runW b n, runB b n) := by
  intro n
  induction n with
  | zero => simp [pairCountW, pairCountB, runW, runB]
  | succ n ih =>
    rw [List.range_succ, List.foldl_append, ih, List.foldl_cons, List.foldl_nil,
      pairCountW_succ, pairCountB_succ]
    have hrw := runW_pos b n
    have hrb := runB_pos b n
    simp only [primeStep, runW, runB, Prod.mk.injEq]
    split_ifs <;> refine ⟨?_, ?_, ?_, ?_⟩ <;> first | rfl | omega

/-- C5 (amended): the prime-strength term of `evaluate` adds 6 for each
adjacent pair of consecutive held points — each point of a run after the
first, so a run of length L contributes 6·(L−1) — with white's prime score
minus black's entering the total. -/
theorem claim5_prime_term_amended (board : List Int) (bo : BorneOff) :
    evaluate board bo =
      pipScore board + blotScore board + anchorScore board +
        (6 * (pairCountW board 24 : Int) - 6 * (pairCountB board 24 : Int)) +
        barScore board + bearScore bo := by
  unfold evaluate primeScore primePart
  rw [primeFold_eq]

/-- C5 counterexample: with white anchors exactly on points 1 and 2 (a run
of length 2), the code's prime term is 6 — one adjacent pair — while the
claimed reading (6 per point of the run) gives 12, so the claimed
decomposition of `evaluate` fails on this board. -/
theorem claim5_counterexample :
    (primePart (2 :: 2 :: List.replicate 24 0)).1 = 6 ∧
    claimPrimeWhite (2 :: 2 :: List.replicate 24 0) = 12 ∧
    evaluate (2 :: 2 :: List.replicate 24 0) ⟨0, 0⟩ ≠
      pipScore (2 :: 2 :: List.replicate 24 0) +
        blotScore (2 :: 2 :: List.replicate 24 0) +
        anchorScore (2 :: 2 :: List.replicate 24 0) +
        (claimPrimeWhite (2 :: 2 :: List.replicate 24 0) -
          claimPrimeBlack (2 :: 2 :: List.replicate 24 0)) +
        barScore (2 :: 2 :: List.replicate 24 0) + bearScore ⟨0, 0⟩ := by
  refine ⟨by decide, by decide, by decide⟩

lemma bgetN_bsetN (b : List Int) (j i : ℕ) (v : Int) :
    bgetN (bsetN b j v) i = if i = j ∧ j < b.length then v else bgetN b i := by
  induction b generalizing i j with
  | nil => simp [bgetN, bsetN]
  | cons a t ih =>
    cases j with
    | zero =>
      cases i <;> simp [bgetN, bsetN]
    | succ j' =>
      cases i with
      | zero => simp [bgetN, bsetN]
      | succ i' =>
        have := ih j' i'
        simp only [bgetN, bsetN] at this ⊢
        simpa [List.getD_cons_succ, Nat.succ_lt_succ_iff] using this

lemma length_bsetN (b : List Int) (j : ℕ) (v : Int) :
    (bsetN b j v).length = b.length := by
  simp [bsetN]

lemma sum_range_if (n j : ℕ) (hj : j < n) (g : ℕ → Int) (w : Int) :
    (∑ i in Finset.range n, if i = j then w else g i) =
      (∑ i in Finset.range n, g i) + w - g j := by
  have h1 : ∀ i ∈ Finset.range n,
      (if i = j then w else g i) = g i + (if i = j then w - g j else 0) := by
    intro i _
    by_cases h : i = j
    · subst h; simp
    · simp [h]
  rw [Finset.sum_congr rfl h1, Finset.sum_add_distrib]
  rw [Finset.sum_ite_eq' (Finset.range n) j (fun _ => w - g j)]
  rw [if_pos (Finset.mem_range.mpr hj)]
  ring

lemma whiteOn_bsetN_lt (b : List Int) (j : ℕ) (v : Int) (hlen : j < b.length)
    (hj : j < 24) :
    whiteOn (bsetN b j v) = whiteOn b + wPart v - wPart (bgetN b j) := by
  unfold whiteOn
  have h : ∀ i ∈ Finset.range 24,
      wPart (bgetN (bsetN b j v) i) = if i = j then wPart v else wPart (bgetN b i) := by
    intro i _
    rw [bgetN_bsetN]
    by_cases h : i = j
    · simp [h, hlen]
    · simp [h]
  rw [Finset.sum_congr rfl h, sum_range_if 24 j hj]

lemma whiteOn_bsetN_ge (b : List Int) (j : ℕ) (v : Int) (hj : 24 ≤ j) :
    whiteOn (bsetN b j v) = whiteOn b := by
  unfold whiteOn
  apply Finset.sum_congr rfl
  intro i hi
  rw [bgetN_bsetN, if_neg]
  intro hcon
  have := Finset.mem_range.mp hi
  omega

lemma blackOn_bsetN_lt (b : List Int) (j : ℕ) (v : Int) (hlen : j < b.length)
    (hj : j < 24) :
    blackOn (bsetN b j v) = blackOn b + bPart v - bPart (bgetN b j) := by
  unfold blackOn
  have h : ∀ i ∈ Finset.range 24,
      bPart (bgetN (bsetN b j v) i) = if i = j then bPart v else bPart (bgetN b i) := by
    intro i _
    rw [bgetN_bsetN]
    by_cases h : i = j
    · simp [h, hlen]
    · simp [h]
  rw [Finset.sum_congr rfl h, sum_range_if 24 j hj]

lemma blackOn_bsetN_ge (b : List Int) (j : ℕ) (v : Int) (hj : 24 ≤ j) :
    blackOn (bsetN b j v) = blackOn b := by
  unfold blackOn
  apply Finset.sum_congr rfl
  intro i hi
  rw [bgetN_bsetN, if_neg]
  intro hcon
  have := Finset.mem_range.mp hi
  omega

lemma bget_natCast (b : List Int) (n : ℕ) : bget b (n : Int) = bgetN b n := by
  simp [bget]

lemma bset_natCast (b : List Int) (n : ℕ) (v : Int) :
    bset b (n : Int) v = bsetN b n v := by
  simp [bset]

lemma wPart_of_nonneg {v : Int} (h : 0 ≤ v) : wPart v = v := by
  simp [wPart, max_eq_left h]

lemma wPart_of_nonpos {v : Int} (h : v ≤ 0) : wPart v = 0 := by
  simp [wPart, max_eq_right h]

lemma bPart_of_nonneg {v : Int} (h : 0 ≤ v) : bPart v = 0 := by
  simp [bPart]; omega

lemma bPart_of_nonpos {v : Int} (h : v ≤ 0) : bPart v = -v := by
  simp [bPart]; omega

lemma landW_hit (c : List Int) (h26 : c.length = 26) (tn : ℕ) (ht : tn < 24)
    (hv : bgetN c tn = -1) :
    whiteOn (bsetN (bsetN (bsetN c tn 0) 25 (bgetN (bsetN c tn 0) 25 + 1)) tn
        (bgetN (bsetN (bsetN c tn 0) 25 (bgetN (bsetN c tn 0) 25 + 1)) tn + 1)) =
      whiteOn c + 1 ∧
    blackOn (bsetN (bsetN (bsetN c tn 0) 25 (bgetN (bsetN c tn 0) 25 + 1)) tn
        (bgetN (bsetN (bsetN c tn 0) 25 (bgetN (bsetN c tn 0) 25 + 1)) tn + 1)) =
      blackOn c - 1 ∧
    bgetN (bsetN (bsetN (bsetN c tn 0) 25 (bgetN (bsetN c tn 0) 25 + 1)) tn
        (bgetN (bsetN (bsetN c tn 0) 25 (bgetN (bsetN c tn 0) 25 + 1)) tn + 1)) 24 =
      bgetN c 24 ∧
    bgetN (bsetN (bsetN (bsetN c tn 0) 25 (bgetN (bsetN c tn 0) 25 + 1)) tn
        (bgetN (bsetN (bsetN c tn 0) 25 (bgetN (bsetN c tn 0) 25 + 1)) tn + 1)) 25 =
      bgetN c 25 + 1 := by
  have hl0 : (bsetN c tn 0).length = 26 := by rw [length_bsetN, h26]
  have hl1 : (bsetN (bsetN c tn 0) 25 (bgetN (bsetN c tn 0) 25 + 1)).length = 26 := by
    rw [length_bsetN, hl0]
  have hg25 : bgetN (bsetN c tn 0) 25 = bgetN c 25 := by
    rw [bgetN_bsetN, if_neg (by omega)]
  have hg1tn : bgetN (bsetN (bsetN c tn 0) 25 (bgetN (bsetN c tn 0) 25 + 1)) tn = 0 := by
    rw [bgetN_bsetN, if_neg (by omega), bgetN_bsetN, if_pos ⟨rfl, by omega⟩]
  refine ⟨?_, ?_, ?_, ?_⟩
  · rw [whiteOn_bsetN_lt _ _ _ (by omega) ht, hg1tn,
      whiteOn_bsetN_ge _ _ _ (by omega),
      whiteOn_bsetN_lt _ _ _ (by omega) ht, hv]
    have e1 : wPart 0 = 0 := by decide
    have e2 : wPart (0 + 1) = 1 := by decide
    have e3 : wPart (-1) = 0 := by decide
    rw [e1, e2, e3]; ring
  · rw [blackOn_bsetN_lt _ _ _ (by omega) ht, hg1tn,
      blackOn_bsetN_ge _ _ _ (by omega),
      blackOn_bsetN_lt _ _ _ (by omega) ht, hv]
    have e1 : bPart 0 = 0 := by decide
    have e2 : bPart (0 + 1) = 0 := by decide
    have e3 : bPart (-1) = 1 := by decide
    rw [e1, e2, e3]; ring
  · rw [bgetN_bsetN, if_neg (by omega), bgetN_bsetN, if_neg (by omega),
      bgetN_bsetN, if_neg (by omega)]
  · rw [bgetN_bsetN, if_neg (by omega), bgetN_bsetN, if_pos ⟨rfl, by omega⟩, hg25]

lemma landW_clear (c : List Int) (h26 : c.length = 26) (tn : ℕ) (ht : tn < 24)
    (hv : 0 ≤ bgetN c tn) :
    whiteOn (bsetN c tn (bgetN c tn + 1)) = whiteOn c + 1 ∧
    blackOn (bsetN c tn (bgetN c tn + 1)) = blackOn c ∧
    bgetN (bsetN c tn (bgetN c tn + 1)) 24 = bgetN c 24 ∧
    bgetN (bsetN c tn (bgetN c tn + 1)) 25 = bgetN c 25 := by
  refine ⟨?_, ?_, ?_, ?_⟩
  · rw [whiteOn_bsetN_lt _ _ _ (by omega) ht,
      wPart_of_nonneg (by omega), wPart_of_nonneg hv]
    ring
  · rw [blackOn_bsetN_lt _ _ _ (by omega) ht,
      bPart_of_nonneg (by omega), bPart_of_nonneg hv]
    ring
  · rw [bgetN_bsetN, if_neg (by omega)]
  · rw [bgetN_bsetN, if_neg (by omega)]

lemma landB_hit (c : List Int) (h26 : c.length = 26) (tn : ℕ) (ht : tn < 24)
    (hv : bgetN c tn = 1) :
    whiteOn (bsetN (bsetN (bsetN c tn 0) 24 (bgetN (bsetN c tn 0) 24 + 1)) tn
        (bgetN (bsetN (bsetN c tn 0) 24 (bgetN (bsetN c tn 0) 24 + 1)) tn - 1)) =
      whiteOn c - 1 ∧
    blackOn (bsetN (bsetN (bsetN c tn 0) 24 (bgetN (bsetN c tn 0) 24 + 1)) tn
        (bgetN (bsetN (bsetN c tn 0) 24 (bgetN (bsetN c tn 0) 24 + 1)) tn - 1)) =
      blackOn c + 1 ∧
    bgetN (bsetN (bsetN (bsetN c tn 0) 24 (bgetN (bsetN c tn 0) 24 + 1)) tn
        (bgetN (bsetN (bsetN c tn 0) 24 (bgetN (bsetN c tn 0) 24 + 1)) tn - 1)) 24 =
      bgetN c 24 + 1 ∧
    bgetN (bsetN (bsetN (bsetN c tn 0) 24 (bgetN (bsetN c tn 0) 24 + 1)) tn
        (bgetN (bsetN (bsetN c tn 0) 24 (bgetN (bsetN c tn 0) 24 + 1)) tn - 1)) 25 =
      bgetN c 25 := by
  have hl0 : (bsetN c tn 0).length = 26 := by rw [length_bsetN, h26]
  have hl1 : (bsetN (bsetN c tn 0) 24 (bgetN (bsetN c tn 0) 24 + 1)).length = 26 := by
    rw [length_bsetN, hl0]
  have hg24 : bgetN (bsetN c tn 0) 24 = bgetN c 24 := by
    rw [bgetN_bsetN, if_neg (by omega)]
  have hg1tn : bgetN (bsetN (bsetN c tn 0) 24 (bgetN (bsetN c tn 0) 24 + 1)) tn = 0 := by
    rw [bgetN_bsetN, if_neg (by omega), bgetN_bsetN, if_pos ⟨rfl, by omega⟩]
  refine ⟨?_, ?_, ?_, ?_⟩
  · rw [whiteOn_bsetN_lt _ _ _ (by omega) ht, hg1tn,
      whiteOn_bsetN_ge _ _ _ (by omega),
      whiteOn_bsetN_lt _ _ _ (by omega) ht, hv]
    have e1 : wPart 0 = 0 := by decide
    have e2 : wPart (0 - 1) = 0 := by decide
    have e3 : wPart 1 = 1 := by decide
    rw [e1, e2, e3]; ring
  · rw [blackOn_bsetN_lt _ _ _ (by omega) ht, hg1tn,
      blackOn_bsetN_ge _ _ _ (by omega),
      blackOn_bsetN_lt _ _ _ (by omega) ht, hv]
    have e1 : bPart 0 = 0 := by decide
    have e2 : bPart (0 - 1) = 1 := by decide
    have e3 : bPart 1 = 0 := by decide
    rw [e1, e2, e3]; ring
  · rw [bgetN_bsetN, if_neg (by omega), bgetN_bsetN, if_pos ⟨rfl, by omega⟩, hg24]
  · rw [bgetN_bsetN, if_neg (by omega), bgetN_bsetN, if_neg (by omega),
      bgetN_bsetN, if_neg (by omega)]

lemma landB_clear (c : List Int) (h26 : c.length = 26) (tn : ℕ) (ht : tn < 24)
    (hv : bgetN c tn ≤ 0) :
    whiteOn (bsetN c tn (bgetN c tn - 1)) = whiteOn c ∧
    blackOn (bsetN c tn (bgetN c tn - 1)) = blackOn c + 1 ∧
    bgetN (bsetN c tn (bgetN c tn - 1)) 24 = bgetN c 24 ∧
    bgetN (bsetN c tn (bgetN c tn - 1)) 25 = bgetN c 25 := by
  refine ⟨?_, ?_, ?_, ?_⟩
  · rw [whiteOn_bsetN_lt _ _ _ (by omega) ht,
      wPart_of_nonpos (by omega), wPart_of_nonpos hv]
    ring
  · rw [blackOn_bsetN_lt _ _ _ (by omega) ht,
      bPart_of_nonpos (by omega), bPart_of_nonpos hv]
    ring
  · rw [bgetN_bsetN, if_neg (by omega)]
  · rw [bgetN_bsetN, if_neg (by omega)]

lemma isBlocked_white_false {b : List Int} {t : Int} (h23 : t ≤ 23)
    (hnb : isBlocked b t .white = false) : -1 ≤ bget b t := by
  unfold isBlocked at hnb
  rw [if_neg (by omega)] at hnb
  have := of_decide_eq_false hnb
  omega

lemma isBlocked_black_false {b : List Int} {t : Int} (h23 : t ≤ 23)
    (hnb : isBlocked b t .black = false) : bget b t ≤ 1 := by
  unfold isBlocked at hnb
  rw [if_neg (by omega)] at hnb
  have := of_decide_eq_false hnb
  omega

lemma mem_sdm_white {b : List Int} {bo : BorneOff} {die : Int} {m : Move}
    (hd1 : 1 ≤ die) (hd6 : die ≤ 6)
    (hm : m ∈ singleDieMoves b bo die .white) :
    (m.from' = 24 ∧ 0 ≤ m.to' ∧ m.to' ≤ 23 ∧ -1 ≤ bget b m.to') ∨
    (m.to' = 26 ∧ ∃ i : ℕ, i < 24 ∧ m.from' = (i : Int) ∧ 0 < bgetN b i) ∨
    (∃ i : ℕ, i < 24 ∧ m.from' = (i : Int) ∧ 0 < bgetN b i ∧
      0 ≤ m.to' ∧ m.to' ≤ 23 ∧ m.to' ≠ m.from' ∧ -1 ≤ bget b m.to') := by
  simp only [singleDieMoves] at hm
  by_cases hbar : bgetN b 24 > 0
  · rw [if_pos hbar] at hm
    split at hm
    · rename_i hc
      obtain ⟨h0, h23, hnb⟩ := hc
      simp only [List.mem_singleton] at hm
      subst hm
      exact Or.inl ⟨rfl, h0, h23, isBlocked_white_false h23 hnb⟩
    · cases hm
  · rw [if_neg hbar] at hm
    rcases List.mem_append.mp hm with hm | hm
    · split at hm
      · rcases List.mem_filterMap.mp hm with ⟨i, hi, hf⟩
        have hi6 : i < 6 := List.mem_range.mp hi
        split at hf
        · cases hf
        · rename_i hle
          split at hf
          · simp only [Option.some.injEq] at hf
            subst hf
            exact Or.inr (Or.inl ⟨rfl, i, by omega, rfl, by omega⟩)
          · split at hf
            · split at hf
              · cases hf
              · simp only [Option.some.injEq] at hf
                subst hf
                exact Or.inr (Or.inl ⟨rfl, i, by omega, rfl, by omega⟩)
            · cases hf
      · cases hm
    · rcases List.mem_filterMap.mp hm with ⟨i, hi, hf⟩
      have hi24 : i < 24 := List.mem_range.mp (List.mem_reverse.mp hi)
      split at hf
      · cases hf
      · rename_i hle
        split at hf
        · rename_i hc
          obtain ⟨h0, hnb⟩ := hc
          simp only [Option.some.injEq] at hf
          subst hf
          dsimp only
          refine Or.inr (Or.inr ⟨i, hi24, rfl, by omega, h0, by omega, by omega, ?_⟩)
          exact isBlocked_white_false (by omega) hnb
        · cases hf

lemma mem_sdm_black {b : List Int} {bo : BorneOff} {die : Int} {m : Move}
    (hd1 : 1 ≤ die) (hd6 : die ≤ 6)
    (hm : m ∈ singleDieMoves b bo die .black) :
    (m.from' = 25 ∧ 0 ≤ m.to' ∧ m.to' ≤ 23 ∧ bget b m.to' ≤ 1) ∨
    (m.to' = 26 ∧ ∃ i : ℕ, i < 24 ∧ m.from' = (i : Int) ∧ bgetN b i < 0) ∨
    (∃ i : ℕ, i < 24 ∧ m.from' = (i : Int) ∧ bgetN b i < 0 ∧
      0 ≤ m.to' ∧ m.to' ≤ 23 ∧ m.to' ≠ m.from' ∧ bget b m.to' ≤ 1) := by
  simp only [singleDieMoves] at hm
  by_cases hbar : bgetN b 25 > 0
  · rw [if_pos hbar] at hm
    split at hm
    · rename_i hc
      obtain ⟨h0, h23, hnb⟩ := hc
      simp only [List.mem_singleton] at hm
      subst hm
      exact Or.inl ⟨rfl, h0, h23, isBlocked_black_false h23 hnb⟩
    · cases hm
  · rw [if_neg hbar] at hm
    rcases List.mem_append.mp hm with hm | hm
    · split at hm
      · rcases List.mem_filterMap.mp hm with ⟨i, hi, hf⟩
        have hi24 : 18 ≤ i ∧ i < 24 := by
          have := List.mem_reverse.mp hi
          have := List.mem_range'.mp this
          omega
        split at hf
        · cases hf
        · rename_i hle
          split at hf
          · simp only [Option.some.injEq] at hf
            subst hf
            exact Or.inr (Or.inl ⟨rfl, i, by omega, rfl, by omega⟩)
          · split at hf
            · split at hf
              · cases hf
              · simp only [Option.some.injEq] at hf
                subst hf
                exact Or.inr (Or.inl ⟨rfl, i, by omega, rfl, by omega⟩)
            · cases hf
      · cases hm
    · rcases List.mem_filterMap.mp hm with ⟨i, hi, hf⟩
      have hi24 : i < 24 := List.mem_range.mp hi
      split at hf
      · cases hf
      · rename_i hle
        split at hf
        · rename_i hc
          obtain ⟨h23, hnb⟩ := hc
          simp only [Option.some.injEq] at hf
          subst hf
          dsimp only
          refine Or.inr (Or.inr ⟨i, hi24, rfl, by omega, by omega, h23, by omega, ?_⟩)
          exact isBlocked_black_false h23 hnb
        · cases hf

lemma bget_lit24 (b : List Int) : bget b (24 : Int) = bgetN b 24 := by
  simp [bget]

lemma bget_lit25 (b : List Int) : bget b (25 : Int) = bgetN b 25 := by
  simp [bget]

lemma bset_lit24 (b : List Int) (v : Int) : bset b (24 : Int) v = bsetN b 24 v := by
  simp [bset]

lemma bset_lit25 (b : List Int) (v : Int) : bset b (25 : Int) v = bsetN b 25 v := by
  simp [bset]

lemma apply_preserves_totals_white (b : List Int) (bo : BorneOff) (die : Int)
    (m : Move) (h26 : b.length = 26) (hd1 : 1 ≤ die) (hd6 : die ≤ 6)
    (hm : m ∈ singleDieMoves b bo die .white) :
    whiteTotal (applyMoveToBoard b bo m .white).board
        (applyMoveToBoard b bo m .white).borneOff = whiteTotal b bo ∧
    blackTotal (applyMoveToBoard b bo m .white).board
        (applyMoveToBoard b bo m .white).borneOff = blackTotal b bo := by
  rcases mem_sdm_white hd1 hd6 hm with
    ⟨hfrom, h0, h23, hnb⟩ | ⟨hto, i, hi, hfrom, hpos⟩ |
    ⟨i, hi, hfrom, hpos, h0, h23, hne, hnb⟩
  · -- bar entry onto point tn
    set tn := m.to'.toNat with htndef
    have hmto : m.to' = (tn : Int) := (Int.toNat_of_nonneg h0).symm
    have htn23 : tn ≤ 23 := by omega
    have hc26 : (bsetN b 24 (bgetN b 24 - 1)).length = 26 := by rw [length_bsetN, h26]
    have hcread : bgetN (bsetN b 24 (bgetN b 24 - 1)) tn = bgetN b tn := by
      rw [bgetN_bsetN, if_neg (by omega)]
    have hbv : -1 ≤ bgetN b tn := by rw [← bget_natCast, ← hmto]; exact hnb
    have hcw : whiteOn (bsetN b 24 (bgetN b 24 - 1)) = whiteOn b :=
      whiteOn_bsetN_ge _ _ _ (by omega)
    have hcb : blackOn (bsetN b 24 (bgetN b 24 - 1)) = blackOn b :=
      blackOn_bsetN_ge _ _ _ (by omega)
    have hc24 : bgetN (bsetN b 24 (bgetN b 24 - 1)) 24 = bgetN b 24 - 1 := by
      rw [bgetN_bsetN, if_pos ⟨rfl, by omega⟩]
    have hc25 : bgetN (bsetN b 24 (bgetN b 24 - 1)) 25 = bgetN b 25 := by
      rw [bgetN_bsetN, if_neg (by omega)]
    by_cases hhit : bgetN b tn = -1
    · simp only [applyMoveToBoard, hfrom, hmto, bget_lit24, bset_lit24, bget_lit25, bset_lit25,
        bget_natCast, bset_natCast, if_pos, reduceIte,
        (show ¬(Player.white = Player.black) by decide),
        (show ¬((tn : Int) = 26) by omega), if_neg, if_false, hcread, hhit,
        and_true, and_false, true_and, false_and]
      obtain ⟨lw, lb, l24, l25⟩ := landW_hit _ hc26 tn (by omega) (by rw [hcread, hhit])
      unfold whiteTotal blackTotal
      rw [lw, lb, l24, l25, hcw, hcb, hc24, hc25]
      constructor <;> ring
    · simp only [applyMoveToBoard, hfrom, hmto, bget_lit24, bset_lit24, bget_lit25, bset_lit25,
        bget_natCast, bset_natCast, if_pos, reduceIte,
        (show ¬(Player.white = Player.black) by decide),
        (show ¬((tn : Int) = 26) by omega), if_neg, if_false,
        (show ¬(bgetN (bsetN b 24 (bgetN b 24 - 1)) tn = -1) by rw [hcread]; exact hhit),
        and_true, and_false, true_and, false_and]
      obtain ⟨lw, lb, l24, l25⟩ := landW_clear _ hc26 tn (by omega)
        (by rw [hcread]; omega)
      unfold whiteTotal blackTotal
      rw [lw, lb, l24, l25, hcw, hcb, hc24, hc25]
      constructor <;> ring
  · -- bear-off from point i
    have hcw : whiteOn (bsetN b i (bgetN b i - 1)) =
        whiteOn b + wPart (bgetN b i - 1) - wPart (bgetN b i) :=
      whiteOn_bsetN_lt _ _ _ (by omega) hi
    have hcb : blackOn (bsetN b i (bgetN b i - 1)) =
        blackOn b + bPart (bgetN b i - 1) - bPart (bgetN b i) :=
      blackOn_bsetN_lt _ _ _ (by omega) hi
    have hc24 : bgetN (bsetN b i (bgetN b i - 1)) 24 = bgetN b 24 := by
      rw [bgetN_bsetN, if_neg (by omega)]
    have hc25 : bgetN (bsetN b i (bgetN b i - 1)) 25 = bgetN b 25 := by
      rw [bgetN_bsetN, if_neg (by omega)]
    simp only [applyMoveToBoard, hfrom, hto, bget_natCast, bset_natCast,
      (show ¬((i : Int) = 24) by omega), (show ¬((i : Int) = 25) by omega),
      if_pos, if_neg, reduceIte, if_false, if_true]
    unfold whiteTotal blackTotal
    rw [hcw, hcb, hc24, hc25,
      wPart_of_nonneg (by omega), wPart_of_nonneg (by omega),
      bPart_of_nonneg (by omega), bPart_of_nonneg (by omega)]
    dsimp only
    constructor <;> ring
  · -- regular move from i to tn
    set tn := m.to'.toNat with htndef
    have hmto : m.to' = (tn : Int) := (Int.toNat_of_nonneg h0).symm
    have htn23 : tn ≤ 23 := by omega
    have htni : tn ≠ i := by omega
    have hc26 : (bsetN b i (bgetN b i - 1)).length = 26 := by rw [length_bsetN, h26]
    have hcread : bgetN (bsetN b i (bgetN b i - 1)) tn = bgetN b tn := by
      rw [bgetN_bsetN, if_neg (by omega)]
    have hbv : -1 ≤ bgetN b tn := by rw [← bget_natCast, ← hmto]; exact hnb
    have hcw : whiteOn (bsetN b i (bgetN b i - 1)) = whiteOn b - 1 := by
      rw [whiteOn_bsetN_lt _ _ _ (by omega) hi,
        wPart_of_nonneg (by omega), wPart_of_nonneg (by omega)]
      ring
    have hcb : blackOn (bsetN b i (bgetN b i - 1)) = blackOn b := by
      rw [blackOn_bsetN_lt _ _ _ (by omega) hi,
        bPart_of_nonneg (by omega), bPart_of_nonneg (by omega)]
      ring
    have hc24 : bgetN (bsetN b i (bgetN b i - 1)) 24 = bgetN b 24 := by
      rw [bgetN_bsetN, if_neg (by omega)]
    have hc25 : bgetN (bsetN b i (bgetN b i - 1)) 25 = bgetN b 25 := by
      rw [bgetN_bsetN, if_neg (by omega)]
    by_cases hhit : bgetN b tn = -1
    · simp only [applyMoveToBoard, hfrom, hmto, bget_natCast, bset_natCast,
        (show ¬((i : Int) = 24) by omega), (show ¬((i : Int) = 25) by omega),
        (show ¬((tn : Int) = 26) by omega), if_pos, if_neg, reduceIte,
        (show ¬(Player.white = Player.black) by decide),
        bget_lit24, bset_lit24, bget_lit25, bset_lit25,
        if_false, if_true, hcread, hhit, and_true, and_false, true_and, false_and]
      obtain ⟨lw, lb, l24, l25⟩ := landW_hit _ hc26 tn (by omega) (by rw [hcread, hhit])
      unfold whiteTotal blackTotal
      rw [lw, lb, l24, l25, hcw, hcb, hc24, hc25]
      constructor <;> ring
    · simp only [applyMoveToBoard, hfrom, hmto, bget_natCast, bset_natCast,
        (show ¬((i : Int) = 24) by omega), (show ¬((i : Int) = 25) by omega),
        (show ¬((tn : Int) = 26) by omega), if_pos, if_neg, reduceIte,
        (show ¬(Player.white = Player.black) by decide),
        bget_lit24, bset_lit24, bget_lit25, bset_lit25,
        (show ¬(bgetN (bsetN b i (bgetN b i - 1)) tn = -1) by rw [hcread]; exact hhit),
        if_false, if_true, and_true, and_false, true_and, false_and]
      obtain ⟨lw, lb, l24, l25⟩ := landW_clear _ hc26 tn (by omega)
        (by rw [hcread]; omega)
      unfold whiteTotal blackTotal
      rw [lw, lb, l24, l25, hcw, hcb, hc24, hc25]
      constructor <;> ring

lemma apply_preserves_totals_black (b : List Int) (bo : BorneOff) (die : Int)
    (m : Move) (h26 : b.length = 26) (hd1 : 1 ≤ die) (hd6 : die ≤ 6)
    (hm : m ∈ singleDieMoves b bo die .black) :
    whiteTotal (applyMoveToBoard b bo m .black).board
        (applyMoveToBoard b bo m .black).borneOff = whiteTotal b bo ∧
    blackTotal (applyMoveToBoard b bo m .black).board
        (applyMoveToBoard b bo m .black).borneOff = blackTotal b bo := by
  rcases mem_sdm_black hd1 hd6 hm with
    ⟨hfrom, h0, h23, hnb⟩ | ⟨hto, i, hi, hfrom, hneg⟩ |
    ⟨i, hi, hfrom, hneg, h0, h23, hne, hnb⟩
  · -- bar entry onto point tn
    set tn := m.to'.toNat with htndef
    have hmto : m.to' = (tn : Int) := (Int.toNat_of_nonneg h0).symm
    have htn23 : tn ≤ 23 := by omega
    have hc26 : (bsetN b 25 (bgetN b 25 - 1)).length = 26 := by rw [length_bsetN, h26]
    have hcread : bgetN (bsetN b 25 (bgetN b 25 - 1)) tn = bgetN b tn := by
      rw [bgetN_bsetN, if_neg (by omega)]
    have hbv : bgetN b tn ≤ 1 := by rw [← bget_natCast, ← hmto]; exact hnb
    have hcw : whiteOn (bsetN b 25 (bgetN b 25 - 1)) = whiteOn b :=
      whiteOn_bsetN_ge _ _ _ (by omega)
    have hcb : blackOn (bsetN b 25 (bgetN b 25 - 1)) = blackOn b :=
      blackOn_bsetN_ge _ _ _ (by omega)
    have hc24 : bgetN (bsetN b 25 (bgetN b 25 - 1)) 24 = bgetN b 24 := by
      rw [bgetN_bsetN, if_neg (by omega)]
    have hc25 : bgetN (bsetN b 25 (bgetN b 25 - 1)) 25 = bgetN b 25 - 1 := by
      rw [bgetN_bsetN, if_pos ⟨rfl, by omega⟩]
    by_cases hhit : bgetN b tn = 1
    · simp only [applyMoveToBoard, hfrom, hmto, bget_lit24, bset_lit24, bget_lit25, bset_lit25,
        bget_natCast, bset_natCast, if_pos, reduceIte,
        (show ¬(Player.black = Player.white) by decide),
        (show ¬((25 : Int) = 24) by decide),
        (show ¬((tn : Int) = 26) by omega), if_neg, if_false, hcread, hhit,
        and_true, and_false, true_and, false_and]
      obtain ⟨lw, lb, l24, l25⟩ := landB_hit _ hc26 tn (by omega) (by rw [hcread, hhit])
      unfold whiteTotal blackTotal
      rw [lw, lb, l24, l25, hcw, hcb, hc24, hc25]
      constructor <;> ring
    · simp only [applyMoveToBoard, hfrom, hmto, bget_lit24, bset_lit24, bget_lit25, bset_lit25,
        bget_natCast, bset_natCast, if_pos, reduceIte,
        (show ¬(Player.black = Player.white) by decide),
        (show ¬((25 : Int) = 24) by decide),
        (show ¬((tn : Int) = 26) by omega), if_neg, if_false,
        (show ¬(bgetN (bsetN b 25 (bgetN b 25 - 1)) tn = 1) by rw [hcread]; exact hhit),
        and_true, and_false, true_and, false_and]
      obtain ⟨lw, lb, l24, l25⟩ := landB_clear _ hc26 tn (by omega)
        (by rw [hcread]; omega)
      unfold whiteTotal blackTotal
      rw [lw, lb, l24, l25, hcw, hcb, hc24, hc25]
      constructor <;> ring
  · -- bear-off from point i
    have hcw : whiteOn (bsetN b i (bgetN b i + 1)) =
        whiteOn b + wPart (bgetN b i + 1) - wPart (bgetN b i) :=
      whiteOn_bsetN_lt _ _ _ (by omega) hi
    have hcb : blackOn (bsetN b i (bgetN b i + 1)) =
        blackOn b + bPart (bgetN b i + 1) - bPart (bgetN b i) :=
      blackOn_bsetN_lt _ _ _ (by omega) hi
    have hc24 : bgetN (bsetN b i (bgetN b i + 1)) 24 = bgetN b 24 := by
      rw [bgetN_bsetN, if_neg (by omega)]
    have hc25 : bgetN (bsetN b i (bgetN b i + 1)) 25 = bgetN b 25 := by
      rw [bgetN_bsetN, if_neg (by omega)]
    simp only [applyMoveToBoard, hfrom, hto, bget_natCast, bset_natCast,
      (show ¬((i : Int) = 24) by omega), (show ¬((i : Int) = 25) by omega),
      (show ¬(Player.black = Player.white) by decide),
      if_pos, if_neg, reduceIte, if_false, if_true]
    unfold whiteTotal blackTotal
    rw [hcw, hcb, hc24, hc25,
      wPart_of_nonpos (by omega), wPart_of_nonpos (by omega),
      bPart_of_nonpos (by omega), bPart_of_nonpos (by omega)]
    dsimp only
    constructor <;> ring
  · -- regular move from i to tn
    set tn := m.to'.toNat with htndef
    have hmto : m.to' = (tn : Int) := (Int.toNat_of_nonneg h0).symm
    have htn23 : tn ≤ 23 := by omega
    have htni : tn ≠ i := by omega
    have hc26 : (bsetN b i (bgetN b i + 1)).length = 26 := by rw [length_bsetN, h26]
    have hcread : bgetN (bsetN b i (bgetN b i + 1)) tn = bgetN b tn := by
      rw [bgetN_bsetN, if_neg (by omega)]
    have hbv : bgetN b tn ≤ 1 := by rw [← bget_natCast, ← hmto]; exact hnb
    have hcw : whiteOn (bsetN b i (bgetN b i + 1)) = whiteOn b := by
      rw [whiteOn_bsetN_lt _ _ _ (by omega) hi,
        wPart_of_nonpos (by omega), wPart_of_nonpos (by omega)]
      ring
    have hcb : blackOn (bsetN b i (bgetN b i + 1)) = blackOn b - 1 := by
      rw [blackOn_bsetN_lt _ _ _ (by omega) hi,
        bPart_of_nonpos (by omega), bPart_of_nonpos (by omega)]
      ring
    have hc24 : bgetN (bsetN b i (bgetN b i + 1)) 24 = bgetN b 24 := by
      rw [bgetN_bsetN, if_neg (by omega)]
    have hc25 : bgetN (bsetN b i (bgetN b i + 1)) 25 = bgetN b 25 := by
      rw [bgetN_bsetN, if_neg (by omega)]
    by_cases hhit : bgetN b tn = 1
    · simp only [applyMoveToBoard, hfrom, hmto, bget_natCast, bset_natCast,
        (show ¬((i : Int) = 24) by omega), (show ¬((i : Int) = 25) by omega),
        (show ¬((tn : Int) = 26) by omega), if_pos, if_neg, reduceIte,
        (show ¬(Player.black = Player.white) by decide),
        bget_lit24, bset_lit24, bget_lit25, bset_lit25,
        if_false, if_true, hcread, hhit, and_true, and_false, true_and, false_and]
      obtain ⟨lw, lb, l24, l25⟩ := landB_hit _ hc26 tn (by omega) (by rw [hcread, hhit])
      unfold whiteTotal blackTotal
      rw [lw, lb, l24, l25, hcw, hcb, hc24, hc25]
      constructor <;> ring
    · simp only [applyMoveToBoard, hfrom, hmto, bget_natCast, bset_natCast,
        (show ¬((i : Int) = 24) by omega), (show ¬((i : Int) = 25) by omega),
        (show ¬((tn : Int) = 26) by omega), if_pos, if_neg, reduceIte,
        (show ¬(Player.black = Player.white) by decide),
        bget_lit24, bset_lit24, bget_lit25, bset_lit25,
        (show ¬(bgetN (bsetN b i (bgetN b i + 1)) tn = 1) by rw [hcread]; exact hhit),
        if_false, if_true, and_true, and_false, true_and, false_and]
      obtain ⟨lw, lb, l24, l25⟩ := landB_clear _ hc26 tn (by omega)
        (by rw [hcread]; omega)
      unfold whiteTotal blackTotal
      rw [lw, lb, l24, l25, hcw, hcb, hc24, hc25]
      constructor <;> ring

/-- C1: applying any move produced by `singleDieMoves` preserves both
players' total checker counts (points + bar + borne off): if both totals are
15 before the move, they are 15 after. -/
theorem claim1_checker_conservation (board : List Int) (bo : BorneOff)
    (die : Int) (p : Player) (m : Move) (h26 : board.length = 26)
    (hd1 : 1 ≤ die) (hd6 : die ≤ 6)
    (hw : whiteTotal board bo = 15) (hb : blackTotal board bo = 15)
    (hm : m ∈ singleDieMoves board bo die p) :
    whiteTotal (applyMoveToBoard board bo m p).board
        (applyMoveToBoard board bo m p).borneOff = 15 ∧
    blackTotal (applyMoveToBoard board bo m p).board
        (applyMoveToBoard board bo m p).borneOff = 15 := by
  cases p with
  | white =>
    obtain ⟨h1, h2⟩ := apply_preserves_totals_white board bo die m h26 hd1 hd6 hm
    exact ⟨h1.trans hw, h2.trans hb⟩
  | black =>
    obtain ⟨h1, h2⟩ := apply_preserves_totals_black board bo die m h26 hd1 hd6 hm
    exact ⟨h1.trans hw, h2.trans hb⟩

/-- Closed instance of C1: the opening move 24/23 with a 1 preserves both
players' 15-checker totals. -/
theorem claim1_witness :
    whiteTotal (applyMoveToBoard initializeBoard ⟨0, 0⟩ ⟨23, 22, 1, false⟩ .white).board
        (applyMoveToBoard initializeBoard ⟨0, 0⟩ ⟨23, 22, 1, false⟩ .white).borneOff = 15 ∧
    blackTotal (applyMoveToBoard initializeBoard ⟨0, 0⟩ ⟨23, 22, 1, false⟩ .white).board
        (applyMoveToBoard initializeBoard ⟨0, 0⟩ ⟨23, 22, 1, false⟩ .white).borneOff = 15 :=
  claim1_checker_conservation initializeBoard ⟨0, 0⟩ 1 .white ⟨23, 22, 1, false⟩
    (by decide) (by decide) (by decide) (by decide) (by decide) (by decide)
